import Mathlib

/-!
# go-redis-streams: the consumer's read loop and acknowledgment

A shallow embedding of `consumer/consumer.go`.

* Go maps (`map[string]string`, `map[string][]string`) are association lists
  `GoMap V`; indexing a missing key gives the zero value, assignment replaces
  the binding of a present key and adds one for an absent key.
* The store client is external.  One call of `XReadGroup(...).Result()` is one
  `Reply` (the pair `vals, err` that `Result` returns); `Read` consumes a list
  of replies, one per loop iteration, and gives `none` when the list runs out
  while the loop is still running.
* `Read` also records the requests it sent, one per iteration.
-/

set_option autoImplicit false

/-- Go map with string keys: an association list. -/
abbrev GoMap (V : Type) := List (String × V)

/-- Go `m[k]`: the value bound to `k`, the zero value when `k` is absent. -/
def mapIndex {V : Type} [Inhabited V] : GoMap V → String → V
  | [], _ => default
  | (k', v) :: t, k => if k' = k then v else mapIndex t k

/-- Go `m[k] = v`. -/
def mapAssign {V : Type} : GoMap V → String → V → GoMap V
  | [], k, v => [(k, v)]
  | (k', v') :: t, k, v => if k' = k then (k, v) :: t else (k', v') :: mapAssign t k v

/-- The keys of a Go map. -/
def mapKeys {V : Type} (m : GoMap V) : List String := m.map Prod.fst

namespace redis

/-- A non-nil error value of the store client: the no-data reply `redis.Nil`,
or any other failure (transport, protocol, context cancellation). -/
inductive Err where
  | Nil : Err
  | Other (text : String) : Err
  deriving DecidableEq, Repr

/-- Field map of a stream entry, `map[string]interface{}`. -/
abbrev Values := List (String × String)

/-- The client's `XMessage`. -/
structure XMessage where
  ID : String
  Values : Values
  deriving DecidableEq, Repr

/-- The client's `XStream`. -/
structure XStream where
  Stream : String
  Messages : List XMessage
  deriving DecidableEq, Repr

/-- The client's `XReadGroupArgs`. -/
structure XReadGroupArgs where
  Group : String
  Consumer : String
  Streams : List String
  Count : Int
  Block : Int
  NoAck : Bool
  deriving DecidableEq, Repr

/-- What `XReadGroup(...).Result()` returns: `vals, err` (`err = none` is Go nil). -/
structure Reply where
  vals : List XStream
  err : Option Err
  deriving DecidableEq, Repr

/-- One queued `XAck(stream, group, ids...)` command. -/
structure XAckCmd where
  stream : String
  group : String
  ids : List String
  deriving DecidableEq, Repr

end redis

namespace consumer

open redis

/-- The live sentinel cursor. -/
def live : String := ">"

/-- A consumed message from a redis stream. -/
structure Message where
  Stream : String
  ID : String
  Values : Values
  deriving DecidableEq, Repr

/-- The consumer configuration. -/
structure config where
  group : String
  consumer : String
  streams : List String
  count : Int
  block : Int
  noAck : Bool
  deriving DecidableEq, Repr

/-- An option modifies the config (Go type `Option`). -/
abbrev OptionFn := config → config

/-- Option `WithStream`: adds a stream to the consumer. -/
def WithStream (stream : String) : OptionFn :=
  fun cfg => { cfg with streams := cfg.streams ++ [stream] }

/-- Option `WithCount`: sets the count for the config. -/
def WithCount (cnt : Int) : OptionFn :=
  fun cfg => { cfg with count := cnt }

/-- Option `WithBlock`: sets the block field of the config. -/
def WithBlock (duration : Int) : OptionFn :=
  fun cfg => { cfg with block := duration }

/-- Option `WithNoAck`: sets the noAck field of the config. -/
def WithNoAck (noAck : Bool) : OptionFn :=
  fun cfg => { cfg with noAck := noAck }

/-- A Consumer: its config and its cursor map (the store client is external). -/
structure Consumer where
  cfg : config
  lastIDs : GoMap String
  deriving DecidableEq, Repr

/-- Constructor `New` creates a new consumer: options applied in order to the initial
config, every subscribed stream's cursor set to "0-0". -/
def New (group consumer : String) (options : List OptionFn) : Consumer :=
  let cfg := options.foldl (fun cfg opt => opt cfg)
    { group := group, consumer := consumer, streams := [], count := 0, block := 0,
      noAck := false }
  let lastIDs := cfg.streams.foldl (fun m stream => mapAssign m stream "0-0") []
  { cfg := cfg, lastIDs := lastIDs }

/-- The `streams` slice of a round: the stream names, then their cursors. -/
def buildStreams (c : Consumer) : List String :=
  c.cfg.streams ++ c.cfg.streams.map (fun stream => mapIndex c.lastIDs stream)

/-- The request of a round. -/
def request (c : Consumer) : XReadGroupArgs :=
  { Group := c.cfg.group, Consumer := c.cfg.consumer, Streams := buildStreams c,
    Count := c.cfg.count, Block := c.cfg.block, NoAck := c.cfg.noAck }

/-- The `allLatest` loop: true unless some cursor of the map differs from ">". -/
def allLatest (lastIDs : GoMap String) : Bool :=
  lastIDs.foldl (fun acc kv => if kv.2 ≠ live then false else acc) true

/-- The inner loop over one stream's messages: append a Message, move the cursor. -/
def processMessages (stream : String) (messages : List XMessage)
    (st : List Message × GoMap String) : List Message × GoMap String :=
  messages.foldl
    (fun st msg =>
      (st.1 ++ [{ Stream := stream, ID := msg.ID, Values := msg.Values }],
       mapAssign st.2 stream msg.ID))
    st

/-- The body of the loop over the response's streams. -/
def processStream (st : List Message × GoMap String) (stream : XStream) :
    List Message × GoMap String :=
  let lastIDs := if stream.Messages.length = 0 then mapAssign st.2 stream.Stream live else st.2
  processMessages stream.Stream stream.Messages (st.1, lastIDs)

/-- The loop over the response's streams, from the empty batch. -/
def processVals (vals : List XStream) (lastIDs : GoMap String) :
    List Message × GoMap String :=
  vals.foldl processStream ([], lastIDs)

/-- One iteration of the loop of `Read` on the reply of its store call: the
consumer afterwards, and `some (msgs, err)` when the iteration returns,
`none` when the loop goes round again. -/
def round (c : Consumer) (r : Reply) : Consumer × Option (List Message × Option Err) :=
  if r.err = some Err.Nil then
    if c.cfg.block ≥ 0 then (c, none) else (c, some ([], none))
  else if r.err ≠ none then
    (c, some ([], r.err))
  else
    let latest := allLatest c.lastIDs
    let out := processVals r.vals c.lastIDs
    let c' : Consumer := { c with lastIDs := out.2 }
    if out.1.length > 0 ∨ latest = true then (c', some (out.1, none)) else (c', none)

/-- What a call of `Read` leaves behind. -/
structure ReadResult where
  msgs : List Message
  err : Option Err
  consumer : Consumer
  requests : List XReadGroupArgs
  rest : List Reply
  deriving DecidableEq, Repr

/-- Method `Read` reads messages from the streams: the loop, one reply per iteration. -/
def Consumer.Read (c : Consumer) : List Reply → Option ReadResult
  | [] => none
  | r :: rest =>
    match round c r with
    | (c', some (msgs, err)) =>
      some { msgs := msgs, err := err, consumer := c', requests := [request c], rest := rest }
    | (c', none) =>
      (Consumer.Read c' rest).map
        (fun res => { res with requests := request c :: res.requests })

/-- Successive calls of `Read` on one Consumer, each call taking up the replies
the earlier ones left. -/
def ReadCalls : Nat → Consumer → List Reply → Option (Consumer × List Reply)
  | 0, c, replies => some (c, replies)
  | n + 1, c, replies =>
    match c.Read replies with
    | none => none
    | some res => ReadCalls n res.consumer res.rest

/-- The consumer after a run of loop iterations, one per reply. -/
def rounds (c : Consumer) (replies : List Reply) : Consumer :=
  replies.foldl (fun c r => (round c r).1) c

/-- The `ids` map of `Ack`: the IDs of the messages, by stream. -/
def groupIDs (msgs : List Message) : GoMap (List String) :=
  msgs.foldl (fun ids msg => mapAssign ids msg.Stream (mapIndex ids msg.Stream ++ [msg.ID])) []

/-- The order in which a `range` over the `ids` map visits its entries; Go
leaves it unspecified, so `Ack` takes it as a parameter. -/
structure RangeOrder where
  visit : GoMap (List String) → GoMap (List String)
  perm : ∀ m, (visit m).Perm m

/-- The range order that visits the entries as the association list holds them. -/
def RangeOrder.asStored : RangeOrder :=
  { visit := fun m => m, perm := fun m => List.Perm.refl m }

/-- What a call of `Ack` did: the pipelined calls it made, each with the
commands queued in it, and the error it returned. -/
structure AckResult where
  pipelines : List (List XAckCmd)
  err : Option Err
  deriving DecidableEq, Repr

/-- Method `Ack` acknowledges the messages; `exec` is the pipeline's execution by the
store client, giving the error `Pipelined` returns. -/
def Consumer.Ack (c : Consumer) (order : RangeOrder) (exec : List XAckCmd → Option Err)
    (msgs : List Message) : AckResult :=
  if msgs.length = 0 then
    { pipelines := [], err := none }
  else
    let ids := groupIDs msgs
    let cmds := (order.visit ids).map
      (fun kv => { stream := kv.1, group := c.cfg.group, ids := kv.2 : XAckCmd })
    { pipelines := [cmds], err := exec cmds }

/-! ### Specification-side definitions -/

/-- The Messages of one stream of a response: its entries in response order,
each with the stream's name, the entry's ID and its field map. -/
def toMessages (xs : XStream) : List Message :=
  xs.Messages.map (fun msg => { Stream := xs.Stream, ID := msg.ID, Values := msg.Values })

/-- The batch of a response as the specification words it: the concatenation,
over the streams in response order, of each stream's entries. -/
def batchOf : List XStream → List Message
  | [] => []
  | xs :: rest => toMessages xs ++ batchOf rest

/-- The cursor a stream's listing in a response calls for: ">" when it holds
no entry, else the ID of its last entry. -/
def cursorOf (xs : XStream) : String :=
  match xs.Messages.getLast? with
  | none => live
  | some msg => msg.ID

/-- A reply carries entries for stream `s`: it is a successful response with a
listing of `s` that holds at least one entry. -/
def carriesEntries (r : Reply) (s : String) : Prop :=
  r.err = none ∧ ∃ xs ∈ r.vals, xs.Stream = s ∧ xs.Messages ≠ []

/-- A reply lists stream `s` with zero entries. -/
def listsEmpty (r : Reply) (s : String) : Prop :=
  r.err = none ∧ ∃ xs ∈ r.vals, xs.Stream = s ∧ xs.Messages = []

instance (r : Reply) (s : String) : Decidable (carriesEntries r s) := by
  unfold carriesEntries
  infer_instance

instance (r : Reply) (s : String) : Decidable (listsEmpty r s) := by
  unfold listsEmpty
  infer_instance

/-- What the caller and the store can see of a call of `Read`: the batch, the
error, the cursors left and the replies not consumed. -/
def ReadResult.observed (res : ReadResult) :
    List Message × Option Err × GoMap String × List Reply :=
  (res.msgs, res.err, res.consumer.lastIDs, res.rest)

/-- The options the package exports, as data: `WithStream`, `WithCount`,
`WithBlock`, `WithNoAck`. -/
inductive OptionSpec where
  | stream (name : String) : OptionSpec
  | count (cnt : Int) : OptionSpec
  | block (duration : Int) : OptionSpec
  | noAck (flag : Bool) : OptionSpec
  deriving DecidableEq, Repr

/-- The option an `OptionSpec` stands for. -/
def OptionSpec.toOption : OptionSpec → OptionFn
  | OptionSpec.stream name => WithStream name
  | OptionSpec.count cnt => WithCount cnt
  | OptionSpec.block duration => WithBlock duration
  | OptionSpec.noAck flag => WithNoAck flag

/-- The streams of the `WithStream` options, in the order the options are given. -/
def subscribed : List OptionSpec → List String
  | [] => []
  | OptionSpec.stream name :: rest => name :: subscribed rest
  | _ :: rest => subscribed rest

/-- The count configured: that of the last `WithCount` option, else `d`. -/
def lastCount (d : Int) : List OptionSpec → Int
  | [] => d
  | OptionSpec.count cnt :: rest => lastCount cnt rest
  | _ :: rest => lastCount d rest

/-- The block duration configured: that of the last `WithBlock` option, else `d`. -/
def lastBlock (d : Int) : List OptionSpec → Int
  | [] => d
  | OptionSpec.block duration :: rest => lastBlock duration rest
  | _ :: rest => lastBlock d rest

/-- The no-ack flag configured: that of the last `WithNoAck` option, else `d`. -/
def lastNoAck (d : Bool) : List OptionSpec → Bool
  | [] => d
  | OptionSpec.noAck flag :: rest => lastNoAck flag rest
  | _ :: rest => lastNoAck d rest

/-- The configured values: the group and consumer name given to `New`, the
streams of the `WithStream` options in order, and the last count, block
duration and no-ack flag set (zero values when none is). -/
def configured (group name : String) (specs : List OptionSpec) : config :=
  { group := group, consumer := name, streams := subscribed specs,
    count := lastCount 0 specs, block := lastBlock 0 specs, noAck := lastNoAck false specs }

/-- The request the specification asks for, given the config and the current
cursors: with `n` subscribed streams, a `Streams` argument of length `2n` whose
element `i` is the `i`-th stream and whose element `n + i` is that stream's
cursor, and the configured group, consumer name, count, block duration and
no-ack flag. -/
def requestFor (cfg : config) (lastIDs : GoMap String) (q : XReadGroupArgs) : Prop :=
  q.Streams.length = 2 * cfg.streams.length ∧
  (∀ i, i < cfg.streams.length →
    q.Streams[i]? = cfg.streams[i]? ∧
    q.Streams[cfg.streams.length + i]? =
      (cfg.streams[i]?).map (fun s => mapIndex lastIDs s)) ∧
  q.Group = cfg.group ∧ q.Consumer = cfg.consumer ∧ q.Count = cfg.count ∧
  q.Block = cfg.block ∧ q.NoAck = cfg.noAck

instance (cfg : config) (lastIDs : GoMap String) (q : XReadGroupArgs) :
    Decidable (requestFor cfg lastIDs q) := by
  unfold requestFor
  infer_instance

/-- The consumer `New` makes from a group, a consumer name and options of the
package given as data. -/
def NewWith (group name : String) (specs : List OptionSpec) : Consumer :=
  New group name (specs.map OptionSpec.toOption)

/-! ### Concrete consumers and replies for the examples -/

/-- A consumer of the single stream "A" with the given block duration and cursor. -/
def oneStream (block : Int) (cursor : String) : Consumer :=
  { cfg := { group := "g", consumer := "n", streams := ["A"], count := 0, block := block,
             noAck := false },
    lastIDs := [("A", cursor)] }

/-- A consumer of the streams "A" and "B" with the given block duration and cursors. -/
def twoStreams (block : Int) (cursorA cursorB : String) : Consumer :=
  { cfg := { group := "g", consumer := "n", streams := ["A", "B"], count := 0, block := block,
             noAck := false },
    lastIDs := [("A", cursorA), ("B", cursorB)] }

/-- An entry with the given ID and the field map of the integration test. -/
def entry (id : String) : XMessage := { ID := id, Values := [("key", "value")] }

/-- A successful response. -/
def okReply (vals : List XStream) : Reply := { vals := vals, err := none }

/-- The no-data reply. -/
def noData : Reply := { vals := [], err := some Err.Nil }

/-- A failed store call. -/
def failed (text : String) : Reply := { vals := [], err := some (Err.Other text) }

/-- The options of the integration test's consumers. -/
def testOptions : List OptionSpec :=
  [OptionSpec.stream "test-stream-1", OptionSpec.stream "test-stream-2"]

/-- Other options with the same streams in the same order. -/
def otherOptions : List OptionSpec :=
  [OptionSpec.stream "test-stream-1", OptionSpec.count 10, OptionSpec.stream "test-stream-2",
   OptionSpec.noAck true]

/-- The options of the integration test's with-ack consumer: the same streams,
non-blocking. -/
def withAckOptions : List OptionSpec :=
  [OptionSpec.stream "test-stream-1", OptionSpec.stream "test-stream-2", OptionSpec.block (-1)]

/-- The response of the integration test's first read: one entry per stream. -/
def testReply : Reply :=
  okReply [⟨"test-stream-1", [entry "1-0"]⟩, ⟨"test-stream-2", [entry "2-0"]⟩]

end consumer

/-! ## Go maps -/

theorem mapIndex_mapAssign_same {V : Type} [Inhabited V] (m : GoMap V) (k : String) (v : V) :
    mapIndex (mapAssign m k v) k = v := by
  induction m with
  | nil => simp [mapAssign, mapIndex]
  | cons kv t ih =>
    obtain ⟨k', v'⟩ := kv
    by_cases h : k' = k
    · simp [mapAssign, mapIndex, h]
    · simp [mapAssign, mapIndex, h, ih]

theorem mapIndex_mapAssign_ne {V : Type} [Inhabited V] (m : GoMap V) (k k2 : String) (v : V)
    (hne : k ≠ k2) : mapIndex (mapAssign m k v) k2 = mapIndex m k2 := by
  induction m with
  | nil => simp [mapAssign, mapIndex, hne]
  | cons kv t ih =>
    obtain ⟨k', v'⟩ := kv
    by_cases h : k' = k
    · subst h
      simp [mapAssign, mapIndex, hne]
    · by_cases h2 : k' = k2
      · subst h2
        simp [mapAssign, mapIndex, h]
      · simp [mapAssign, mapIndex, h, h2, ih]

theorem mapAssign_mapAssign {V : Type} (m : GoMap V) (k : String) (v w : V) :
    mapAssign (mapAssign m k v) k w = mapAssign m k w := by
  induction m with
  | nil => simp [mapAssign]
  | cons kv t ih =>
    obtain ⟨k', v'⟩ := kv
    by_cases h : k' = k
    · simp [mapAssign, h]
    · simp [mapAssign, h, ih]

theorem mem_mapKeys_mapAssign {V : Type} (m : GoMap V) (k k2 : String) (v : V) :
    k2 ∈ mapKeys (mapAssign m k v) ↔ k2 = k ∨ k2 ∈ mapKeys m := by
  induction m with
  | nil => simp [mapAssign, mapKeys]
  | cons kv t ih =>
    obtain ⟨k', v'⟩ := kv
    simp only [mapKeys] at ih
    by_cases h : k' = k
    · subst h
      simp [mapAssign, mapKeys]
    · simp only [mapAssign, h, mapKeys, if_false, List.map_cons, List.mem_cons, ih]
      tauto

theorem nodup_mapKeys_mapAssign {V : Type} (m : GoMap V) (k : String) (v : V)
    (hm : (mapKeys m).Nodup) : (mapKeys (mapAssign m k v)).Nodup := by
  induction m with
  | nil => simp [mapAssign, mapKeys]
  | cons kv t ih =>
    obtain ⟨k', v'⟩ := kv
    have hm2 : k' ∉ mapKeys t ∧ (mapKeys t).Nodup := by
      simpa [mapKeys] using hm
    by_cases h : k' = k
    · subst h
      simpa [mapAssign, mapKeys] using hm
    · have hk : k' ∉ mapKeys (mapAssign t k v) := by
        rw [mem_mapKeys_mapAssign]
        intro hc
        rcases hc with hc | hc
        · exact h hc
        · exact hm2.1 hc
      have := ih hm2.2
      simp only [mapAssign, h, if_false, mapKeys, List.map_cons, List.nodup_cons]
      exact ⟨hk, this⟩

theorem mapIndex_of_mem {V : Type} [Inhabited V] (m : GoMap V) (k : String) (v : V)
    (hm : (mapKeys m).Nodup) (hmem : (k, v) ∈ m) : mapIndex m k = v := by
  induction m with
  | nil => simp at hmem
  | cons kv t ih =>
    obtain ⟨k', v'⟩ := kv
    have hm2 : k' ∉ mapKeys t ∧ (mapKeys t).Nodup := by
      simpa [mapKeys] using hm
    rcases List.mem_cons.mp hmem with heq | htail
    · cases heq
      simp [mapIndex]
    · have hk : k ∈ mapKeys t := List.mem_map.mpr ⟨(k, v), htail, rfl⟩
      have hne : k' ≠ k := fun hc => hm2.1 (hc ▸ hk)
      simp [mapIndex, hne, ih hm2.2 htail]

theorem mem_values_mapAssign {V : Type} (m : GoMap V) (k : String) (v : V) (kv : String × V)
    (hmem : kv ∈ mapAssign m k v) : kv = (k, v) ∨ kv ∈ m := by
  induction m with
  | nil => simpa [mapAssign] using hmem
  | cons e t ih =>
    obtain ⟨k', v'⟩ := e
    by_cases h : k' = k
    · simp only [mapAssign, h, if_true, List.mem_cons] at hmem
      rcases hmem with hmem | hmem
      · exact Or.inl hmem
      · exact Or.inr (List.mem_cons_of_mem _ hmem)
    · simp only [mapAssign, h, if_false, List.mem_cons] at hmem
      rcases hmem with hmem | hmem
      · exact Or.inr (hmem ▸ List.mem_cons_self _ _)
      · rcases ih hmem with h1 | h1
        · exact Or.inl h1
        · exact Or.inr (List.mem_cons_of_mem _ h1)

namespace consumer

open redis

/-! ## Processing a response -/

theorem processMessages_fst (stream : String) (messages : List XMessage)
    (st : List Message × GoMap String) :
    (processMessages stream messages st).1 =
      st.1 ++ messages.map (fun msg => { Stream := stream, ID := msg.ID, Values := msg.Values }) := by
  induction messages generalizing st with
  | nil => simp [processMessages]
  | cons a t ih =>
    have h := ih (st.1 ++ [{ Stream := stream, ID := a.ID, Values := a.Values }],
      mapAssign st.2 stream a.ID)
    simp only [processMessages, List.foldl_cons] at h ⊢
    rw [h]
    simp

theorem processMessages_snd (stream : String) (messages : List XMessage)
    (st : List Message × GoMap String) :
    (processMessages stream messages st).2 =
      match messages.getLast? with
      | none => st.2
      | some msg => mapAssign st.2 stream msg.ID := by
  induction messages generalizing st with
  | nil => simp [processMessages]
  | cons a t ih =>
    have h := ih (st.1 ++ [{ Stream := stream, ID := a.ID, Values := a.Values }],
      mapAssign st.2 stream a.ID)
    simp only [processMessages, List.foldl_cons] at h ⊢
    rw [h]
    cases t with
    | nil => simp
    | cons b u =>
      rw [List.getLast?_cons_cons]
      cases hl : (b :: u).getLast? with
      | none => simp at hl
      | some x => simp [mapAssign_mapAssign]

theorem processStream_eq (st : List Message × GoMap String) (xs : XStream) :
    processStream st xs = (st.1 ++ toMessages xs, mapAssign st.2 xs.Stream (cursorOf xs)) := by
  apply Prod.ext
  · simp [processStream, processMessages_fst, toMessages]
  · simp only [processStream, processMessages_snd, cursorOf]
    cases hm : xs.Messages with
    | nil => simp
    | cons a t =>
      cases hl : (a :: t).getLast? with
      | none => simp at hl
      | some x => simp

theorem foldl_processStream_fst (vals : List XStream) (st : List Message × GoMap String) :
    (vals.foldl processStream st).1 = st.1 ++ batchOf vals := by
  induction vals generalizing st with
  | nil => simp [batchOf]
  | cons xs t ih =>
    simp only [List.foldl_cons, batchOf]
    rw [ih, processStream_eq]
    simp

theorem processVals_fst (vals : List XStream) (lastIDs : GoMap String) :
    (processVals vals lastIDs).1 = batchOf vals := by
  simp [processVals, foldl_processStream_fst]

theorem foldl_processStream_snd (vals : List XStream) (st : List Message × GoMap String) :
    (vals.foldl processStream st).2 =
      vals.foldl (fun m xs => mapAssign m xs.Stream (cursorOf xs)) st.2 := by
  induction vals generalizing st with
  | nil => simp
  | cons xs t ih =>
    simp only [List.foldl_cons]
    rw [ih, processStream_eq]

theorem processVals_snd (vals : List XStream) (lastIDs : GoMap String) :
    (processVals vals lastIDs).2 =
      vals.foldl (fun m xs => mapAssign m xs.Stream (cursorOf xs)) lastIDs := by
  simp [processVals, foldl_processStream_snd]

/-- A response leaves the cursor of a stream it does not name as it was. -/
theorem cursor_unnamed (vals : List XStream) (lastIDs : GoMap String) (s : String)
    (h : ∀ xs ∈ vals, xs.Stream ≠ s) :
    mapIndex (processVals vals lastIDs).2 s = mapIndex lastIDs s := by
  rw [processVals_snd]
  induction vals generalizing lastIDs with
  | nil => simp
  | cons xs t ih =>
    simp only [List.foldl_cons]
    rw [ih _ (fun y hy => h y (List.mem_cons_of_mem _ hy))]
    exact mapIndex_mapAssign_ne _ _ _ _ (h xs (List.mem_cons_self _ _))

/-- The cursor of a stream after a response is the one its last listing calls for. -/
theorem cursor_last_listing (pre post : List XStream) (xs : XStream) (lastIDs : GoMap String)
    (h : ∀ y ∈ post, y.Stream ≠ xs.Stream) :
    mapIndex (processVals (pre ++ xs :: post) lastIDs).2 xs.Stream = cursorOf xs := by
  have hpost := cursor_unnamed post
    (mapAssign (processVals pre lastIDs).2 xs.Stream (cursorOf xs)) xs.Stream h
  rw [processVals_snd] at hpost ⊢
  rw [processVals_snd] at hpost
  rw [List.foldl_append, List.foldl_cons, hpost]
  exact mapIndex_mapAssign_same _ _ _

/-- A live cursor stays live through a response none of whose listings of the
stream holds an entry. -/
theorem cursor_live_kept (vals : List XStream) (lastIDs : GoMap String) (s : String)
    (hlive : mapIndex lastIDs s = live)
    (h : ∀ xs ∈ vals, xs.Stream = s → xs.Messages = []) :
    mapIndex (processVals vals lastIDs).2 s = live := by
  rw [processVals_snd]
  induction vals generalizing lastIDs with
  | nil => simpa using hlive
  | cons xs t ih =>
    simp only [List.foldl_cons]
    apply ih _ _ (fun y hy => h y (List.mem_cons_of_mem _ hy))
    by_cases hs : xs.Stream = s
    · have hm := h xs (List.mem_cons_self _ _) hs
      subst hs
      rw [mapIndex_mapAssign_same]
      simp [cursorOf, hm]
    · rw [mapIndex_mapAssign_ne _ _ _ _ hs]
      exact hlive

/-- A cursor that is not live stays so through a response that has no empty
listing of the stream, when no entry ID is the sentinel. -/
theorem cursor_replay_kept (vals : List XStream) (lastIDs : GoMap String) (s : String)
    (hids : ∀ xs ∈ vals, ∀ msg ∈ xs.Messages, msg.ID ≠ live)
    (hreplay : mapIndex lastIDs s ≠ live)
    (h : ∀ xs ∈ vals, xs.Stream = s → xs.Messages ≠ []) :
    mapIndex (processVals vals lastIDs).2 s ≠ live := by
  rw [processVals_snd]
  induction vals generalizing lastIDs with
  | nil => simpa using hreplay
  | cons xs t ih =>
    simp only [List.foldl_cons]
    apply ih _ (fun y hy => hids y (List.mem_cons_of_mem _ hy)) _
      (fun y hy => h y (List.mem_cons_of_mem _ hy))
    by_cases hs : xs.Stream = s
    · have hm := h xs (List.mem_cons_self _ _) hs
      subst hs
      rw [mapIndex_mapAssign_same]
      cases hl : xs.Messages.getLast? with
      | none => exact absurd (List.getLast?_eq_none_iff.mp hl) hm
      | some x =>
        have hx : x ∈ xs.Messages := List.mem_of_getLast?_eq_some hl
        simpa [cursorOf, hl] using hids xs (List.mem_cons_self _ _) x hx
    · rw [mapIndex_mapAssign_ne _ _ _ _ hs]
      exact hreplay

end consumer

namespace consumer

open redis

/-! ## One iteration of the loop -/

theorem allLatest_foldl (m : GoMap String) (acc : Bool) :
    m.foldl (fun acc kv => if kv.2 ≠ live then false else acc) acc = true ↔
      acc = true ∧ ∀ kv ∈ m, kv.2 = live := by
  induction m generalizing acc with
  | nil => simp
  | cons kv t ih =>
    simp only [List.foldl_cons]
    rw [ih]
    by_cases h : kv.2 = live
    · simp [h]
    · simp [h]

theorem allLatest_iff (m : GoMap String) : allLatest m = true ↔ ∀ kv ∈ m, kv.2 = live := by
  unfold allLatest
  rw [allLatest_foldl]
  simp

theorem round_noData (c : Consumer) (r : Reply) (h : r.err = some Err.Nil) :
    round c r = if c.cfg.block < 0 then (c, some ([], none)) else (c, none) := by
  by_cases hb : c.cfg.block < 0
  · have : ¬ c.cfg.block ≥ 0 := by omega
    simp [round, h, hb, this]
  · have : c.cfg.block ≥ 0 := by omega
    simp [round, h, hb, this]

theorem round_fail (c : Consumer) (r : Reply) (h1 : r.err ≠ some Err.Nil) (h2 : r.err ≠ none) :
    round c r = (c, some ([], r.err)) := by
  simp [round, h1, h2]

theorem round_data (c : Consumer) (r : Reply) (h : r.err = none) :
    round c r =
      if batchOf r.vals ≠ [] ∨ allLatest c.lastIDs = true then
        ({ c with lastIDs := (processVals r.vals c.lastIDs).2 }, some (batchOf r.vals, none))
      else ({ c with lastIDs := (processVals r.vals c.lastIDs).2 }, none) := by
  have hlen : (batchOf r.vals).length > 0 ↔ batchOf r.vals ≠ [] := by
    rw [gt_iff_lt, List.length_pos]
  simp only [round, h, processVals_fst, hlen]
  simp

theorem round_cfg (c : Consumer) (r : Reply) : (round c r).1.cfg = c.cfg := by
  unfold round
  split
  · split <;> rfl
  · split
    · rfl
    · simp only []
      split <;> rfl

/-- An iteration that returns an error returns the store's error, which is
not `redis.Nil`, with an empty batch and the consumer as it was. -/
theorem round_error (c c' : Consumer) (r : Reply) (msgs : List Message) (e : Err)
    (h : round c r = (c', some (msgs, some e))) :
    r.err = some e ∧ e ≠ Err.Nil ∧ msgs = [] ∧ c' = c := by
  by_cases h1 : r.err = some Err.Nil
  · rw [round_noData c r h1] at h
    split at h <;> simp at h
  · by_cases h2 : r.err = none
    · rw [round_data c r h2] at h
      split at h <;> simp at h
    · rw [round_fail c r h1 h2] at h
      simp only [Prod.mk.injEq, Option.some.injEq] at h
      obtain ⟨hc, hm, he⟩ := h
      refine ⟨he, ?_, hm.symm, hc.symm⟩
      intro hn
      exact h1 (by rw [he, hn])

/-- A no-data iteration leaves the consumer as it was. -/
theorem round_noData_fst (c : Consumer) (r : Reply) (h : r.err = some Err.Nil) :
    (round c r).1 = c := by
  rw [round_noData c r h]
  split <;> rfl

/-! ## The loop -/

theorem Read_cons_ret (c c' : Consumer) (r : Reply) (rest : List Reply)
    (msgs : List Message) (err : Option Err) (h : round c r = (c', some (msgs, err))) :
    c.Read (r :: rest) =
      some { msgs := msgs, err := err, consumer := c', requests := [request c], rest := rest } := by
  simp [Consumer.Read, h]

theorem Read_cons_again (c c' : Consumer) (r : Reply) (rest : List Reply)
    (h : round c r = (c', none)) :
    c.Read (r :: rest) =
      (c'.Read rest).map (fun res => { res with requests := request c :: res.requests }) := by
  simp [Consumer.Read, h]

theorem rounds_append (c : Consumer) (pre : List Reply) (r : Reply) :
    rounds c (pre ++ [r]) = (round (rounds c pre) r).1 := by
  simp [rounds, List.foldl_append]

theorem rounds_cons (c : Consumer) (r : Reply) (more : List Reply) :
    rounds c (r :: more) = rounds (round c r).1 more := by
  simp [rounds]

/-- A call of `Read` that returns has run some iterations that went round
again and then one iteration that returned. -/
theorem Read_consumed (c : Consumer) (replies : List Reply) (res : ReadResult)
    (h : c.Read replies = some res) :
    ∃ pre r, replies = pre ++ r :: res.rest ∧
      round (rounds c pre) r = (res.consumer, some (res.msgs, res.err)) := by
  induction replies generalizing c res with
  | nil => simp [Consumer.Read] at h
  | cons r rest ih =>
    rcases hr : round c r with ⟨c', out⟩
    cases out with
    | some o =>
      obtain ⟨msgs, err⟩ := o
      rw [Read_cons_ret c c' r rest msgs err hr] at h
      simp only [Option.some.injEq] at h
      subst h
      exact ⟨[], r, rfl, by simpa [rounds] using hr⟩
    | none =>
      rw [Read_cons_again c c' r rest hr] at h
      cases hrec : c'.Read rest with
      | none => simp [hrec] at h
      | some res' =>
        simp only [hrec, Option.map_some', Option.some.injEq] at h
        obtain ⟨pre, r2, hsplit, hround⟩ := ih c' res' hrec
        subst h
        refine ⟨r :: pre, r2, by simp [hsplit], ?_⟩
        have hc' : (round c r).1 = c' := by rw [hr]
        rw [rounds_cons, hc']
        exact hround

/-- The first request of a call of `Read` is built from the consumer as the
call found it. -/
theorem Read_requests_head (c : Consumer) (replies : List Reply) (res : ReadResult)
    (h : c.Read replies = some res) : ∃ more, res.requests = request c :: more := by
  cases replies with
  | nil => simp [Consumer.Read] at h
  | cons r rest =>
    rcases hr : round c r with ⟨c', out⟩
    cases out with
    | some o =>
      obtain ⟨msgs, err⟩ := o
      rw [Read_cons_ret c c' r rest msgs err hr] at h
      simp only [Option.some.injEq] at h
      subst h
      exact ⟨[], rfl⟩
    | none =>
      rw [Read_cons_again c c' r rest hr] at h
      cases hrec : c'.Read rest with
      | none => simp [hrec] at h
      | some res' =>
        simp only [hrec, Option.map_some', Option.some.injEq] at h
        subst h
        exact ⟨res'.requests, rfl⟩

end consumer

namespace consumer

open redis

/-! ## The first iteration of a call -/

theorem returns_iff (c : Consumer) (r : Reply) :
    (batchOf r.vals ≠ [] ∨ allLatest c.lastIDs = true) ↔
      (batchOf r.vals ≠ [] ∨ ∀ kv ∈ c.lastIDs, kv.2 = live) := by
  rw [allLatest_iff]

theorem round_data_ret (c : Consumer) (r : Reply) (hok : r.err = none)
    (hcond : batchOf r.vals ≠ [] ∨ ∀ kv ∈ c.lastIDs, kv.2 = live) :
    round c r =
      ({ c with lastIDs := (processVals r.vals c.lastIDs).2 }, some (batchOf r.vals, none)) := by
  rw [round_data c r hok, if_pos ((returns_iff c r).mpr hcond)]

theorem round_data_again (c : Consumer) (r : Reply) (hok : r.err = none)
    (hcond : ¬ (batchOf r.vals ≠ [] ∨ ∀ kv ∈ c.lastIDs, kv.2 = live)) :
    round c r = ({ c with lastIDs := (processVals r.vals c.lastIDs).2 }, none) := by
  rw [round_data c r hok, if_neg (fun hc => hcond ((returns_iff c r).mp hc))]

theorem Read_ret_on_noData (c : Consumer) (r : Reply) (rest : List Reply)
    (h : r.err = some Err.Nil) (hb : c.cfg.block < 0) :
    c.Read (r :: rest) =
      some { msgs := [], err := none, consumer := c, requests := [request c], rest := rest } := by
  have hr := round_noData c r h
  rw [if_pos hb] at hr
  exact Read_cons_ret c c r rest [] none hr

/-! ## Errors (C1) -/

theorem rounds_noData (c : Consumer) (pre : List Reply)
    (h : ∀ p ∈ pre, p.err = some Err.Nil) : rounds c pre = c := by
  induction pre generalizing c with
  | nil => rfl
  | cons p t ih =>
    rw [rounds_cons, round_noData_fst c p (h p (List.mem_cons_self _ _))]
    exact ih c (fun q hq => h q (List.mem_cons_of_mem _ hq))

/-- C1, as the claim states it, fails: one subscribed stream at "0-0", a first
response that lists it with zero entries, then a failed store call.  `Read`
returns the error with an empty batch, but the cursor map it leaves is
`A ↦ ">"`, not the `A ↦ "0-0"` the call started from. -/
theorem Read_error_after_data_round_moves_cursor :
    (oneStream 0 "0-0").lastIDs = [("A", "0-0")] ∧
    ((oneStream 0 "0-0").Read [okReply [⟨"A", []⟩], failed "boom"]).map
        (fun res => (res.msgs, res.err, res.consumer.lastIDs)) =
      some ([], some (Err.Other "boom"), [("A", ">")]) := by
  decide

/-- C1 (amended): when `Read` returns a non-nil error `e`, the replies it
consumed are some iterations `pre` that went round again and then one reply `r`
whose error is exactly `e`; `e` is not `redis.Nil`, the batch is empty, and the
consumer (config and cursor map) is exactly the one the failing iteration
started from, `rounds c pre`.  When every earlier iteration was a no-data one
(in particular when there was none), that is the consumer the call started
from. -/
theorem Read_error_surfaced (c : Consumer) (replies : List Reply) (res : ReadResult) (e : Err)
    (h : c.Read replies = some res) (herr : res.err = some e) :
    ∃ pre r, replies = pre ++ r :: res.rest ∧ r.err = some e ∧ e ≠ Err.Nil ∧
      res.msgs = [] ∧ res.consumer = rounds c pre ∧
      ((∀ p ∈ pre, p.err = some Err.Nil) → res.consumer = c) := by
  obtain ⟨pre, r, hsplit, hround⟩ := Read_consumed c replies res h
  rw [herr] at hround
  obtain ⟨h1, h2, h3, h4⟩ := round_error _ _ r _ e hround
  refine ⟨pre, r, hsplit, h1, h2, h3, h4, ?_⟩
  intro hpre
  rw [h4, rounds_noData c pre hpre]

/-- C1 witness: a blocking consumer, one no-data reply, then a failed call. -/
theorem Read_error_surfaced_witness :
    ∃ pre r, [noData, failed "boom"] = pre ++ r :: ([] : List Reply) ∧
      r.err = some (Err.Other "boom") ∧ Err.Other "boom" ≠ Err.Nil ∧
      ([] : List Message) = [] ∧ oneStream 0 "0-0" = rounds (oneStream 0 "0-0") pre ∧
      ((∀ p ∈ pre, p.err = some Err.Nil) → oneStream 0 "0-0" = oneStream 0 "0-0") :=
  Read_error_surfaced (oneStream 0 "0-0") [noData, failed "boom"]
    { msgs := [], err := some (Err.Other "boom"), consumer := oneStream 0 "0-0",
      requests := [request (oneStream 0 "0-0"), request (oneStream 0 "0-0")], rest := [] }
    (Err.Other "boom") (by decide) rfl

/-! ## Live mode (C2) -/

theorem round_not_data (c : Consumer) (r : Reply) (h : r.err ≠ none) : (round c r).1 = c := by
  by_cases h1 : r.err = some Err.Nil
  · exact round_noData_fst c r h1
  · rw [round_fail c r h1 h]

theorem round_data_lastIDs (c : Consumer) (r : Reply) (h : r.err = none) :
    (round c r).1.lastIDs = (processVals r.vals c.lastIDs).2 := by
  rw [round_data c r h]
  split <;> rfl

theorem round_live_kept (c : Consumer) (r : Reply) (s : String)
    (hlive : mapIndex c.lastIDs s = live) (hno : ¬ carriesEntries r s) :
    mapIndex (round c r).1.lastIDs s = live := by
  by_cases h : r.err = none
  · rw [round_data_lastIDs c r h]
    apply cursor_live_kept _ _ _ hlive
    intro xs hxs hs
    by_contra hm
    exact hno ⟨h, xs, hxs, hs, hm⟩
  · rw [round_not_data c r h]
    exact hlive

theorem rounds_live_kept (c : Consumer) (replies : List Reply) (s : String)
    (hlive : mapIndex c.lastIDs s = live) (hno : ∀ r ∈ replies, ¬ carriesEntries r s) :
    mapIndex (rounds c replies).lastIDs s = live := by
  induction replies generalizing c with
  | nil => exact hlive
  | cons r t ih =>
    rw [rounds_cons]
    exact ih _ (round_live_kept c r s hlive (hno r (List.mem_cons_self _ _)))
      (fun q hq => hno q (List.mem_cons_of_mem _ hq))

theorem rounds_rounds (c : Consumer) (l1 l2 : List Reply) :
    rounds (rounds c l1) l2 = rounds c (l1 ++ l2) := by
  simp [rounds, List.foldl_append]

/-- Successive calls of `Read` run the iterations of the replies they consumed. -/
theorem ReadCalls_consumed (n : Nat) (c c' : Consumer) (replies rest : List Reply)
    (h : ReadCalls n c replies = some (c', rest)) :
    ∃ consumed, replies = consumed ++ rest ∧ c' = rounds c consumed := by
  induction n generalizing c replies with
  | zero =>
    simp only [ReadCalls, Option.some.injEq, Prod.mk.injEq] at h
    exact ⟨[], by simp [h.2], by simp [rounds, h.1]⟩
  | succ n ih =>
    cases hread : c.Read replies with
    | none => simp [ReadCalls, hread] at h
    | some res =>
      simp only [ReadCalls, hread] at h
      obtain ⟨pre, r, hsplit, hround⟩ := Read_consumed c replies res hread
      obtain ⟨consumed, hrest, hc'⟩ := ih res.consumer res.rest h
      have hres : res.consumer = rounds c (pre ++ [r]) := by
        rw [rounds_append, hround]
      refine ⟨(pre ++ [r]) ++ consumed, ?_, ?_⟩
      · rw [hsplit, hrest]
        simp
      · rw [hc', hres, rounds_rounds]

/-- C2, as the claim states it, fails: a stream whose cursor is ">" and a
response that carries one entry "5-0" for it.  `Read` returns that entry and
leaves the cursor at "5-0", not at ">". -/
theorem live_cursor_leaves_live_on_entries :
    mapIndex (oneStream 0 ">").lastIDs "A" = ">" ∧
    ((oneStream 0 ">").Read [okReply [⟨"A", [entry "5-0"]⟩]]).map
        (fun res => (res.msgs, res.err, mapIndex res.consumer.lastIDs "A")) =
      some ([⟨"A", "5-0", [("key", "value")]⟩], none, "5-0") := by
  decide

/-- C2 (amended): a cursor at ">" is still ">" after any iteration whose
reply carries no entry for that stream (no-data, a failure, a response that
does not list the stream or lists it with zero entries), and so after any
number of `Read` calls none of whose consumed replies carries an entry for it;
and, entry IDs never being ">", a cursor goes from another value to ">" only in
an iteration whose response lists the stream with zero entries. -/
theorem live_kept_without_entries (c : Consumer) (s : String) :
    (∀ r, mapIndex c.lastIDs s = live → ¬ carriesEntries r s →
      mapIndex (round c r).1.lastIDs s = live) ∧
    (∀ n consumed rest c', ReadCalls n c (consumed ++ rest) = some (c', rest) →
      mapIndex c.lastIDs s = live → (∀ r ∈ consumed, ¬ carriesEntries r s) →
      mapIndex c'.lastIDs s = live) ∧
    (∀ r, (∀ xs ∈ r.vals, ∀ msg ∈ xs.Messages, msg.ID ≠ live) →
      mapIndex c.lastIDs s ≠ live → mapIndex (round c r).1.lastIDs s = live →
      listsEmpty r s) := by
  refine ⟨fun r hlive hno => round_live_kept c r s hlive hno, ?_, ?_⟩
  · intro n consumed rest c' hcalls hlive hno
    obtain ⟨consumed', hsplit, hc'⟩ := ReadCalls_consumed n c c' _ rest hcalls
    have heq : consumed = consumed' := List.append_cancel_right hsplit
    subst heq
    rw [hc']
    exact rounds_live_kept c consumed s hlive hno
  · intro r hids hreplay hafter
    by_cases h : r.err = none
    · by_contra hno
      rw [round_data_lastIDs c r h] at hafter
      refine cursor_replay_kept r.vals c.lastIDs s hids hreplay ?_ hafter
      intro xs hxs hs hm
      exact hno ⟨h, xs, hxs, hs, hm⟩
    · rw [round_not_data c r h] at hafter
      exact absurd hafter hreplay

/-- C2 witness: stream "A" live, stream "B" in replay; two `Read` calls, the
first returning an entry of "B", the second a no-data return; "A" stays live. -/
theorem live_kept_without_entries_witness :
    ReadCalls 2 (twoStreams (-1) ">" "0-0")
        ([okReply [⟨"B", [entry "7-0"]⟩, ⟨"A", []⟩], noData] ++ []) =
      some (twoStreams (-1) ">" "7-0", []) ∧
    mapIndex (twoStreams (-1) ">" "7-0").lastIDs "A" = live :=
  ⟨by decide,
   (live_kept_without_entries (twoStreams (-1) ">" "0-0") "A").2.1 2
     [okReply [⟨"B", [entry "7-0"]⟩, ⟨"A", []⟩], noData] [] (twoStreams (-1) ">" "7-0")
     (by decide) (by decide) (by decide)⟩

end consumer

namespace consumer

open redis

/-! ## The no-data outcome (C3) -/

/-- C3: on a no-data reply the iteration changes nothing of the consumer; it
returns exactly when the block duration is negative, and then `Read` returns
the empty batch and a nil error having sent one request and consumed one
reply; when the block duration is zero or positive `Read` goes on as a call
from the unchanged consumer on the remaining replies, so that its next
request is the same request again. -/
theorem Read_noData (c : Consumer) (r : Reply) (rest : List Reply)
    (h : r.err = some Err.Nil) :
    (round c r).1 = c ∧
    ((round c r).2 ≠ none ↔ c.cfg.block < 0) ∧
    (c.cfg.block < 0 →
      c.Read (r :: rest) =
        some { msgs := [], err := none, consumer := c, requests := [request c], rest := rest }) ∧
    (0 ≤ c.cfg.block →
      c.Read (r :: rest) =
          (c.Read rest).map (fun res => { res with requests := request c :: res.requests }) ∧
      ∀ res, c.Read (r :: rest) = some res →
        ∃ more, res.requests = request c :: request c :: more) := by
  have hr := round_noData c r h
  refine ⟨round_noData_fst c r h, ?_, ?_, ?_⟩
  · rw [hr]
    by_cases hb : c.cfg.block < 0 <;> simp [hb]
  · intro hb
    exact Read_ret_on_noData c r rest h hb
  · intro hb
    have hnb : ¬ c.cfg.block < 0 := by omega
    rw [if_neg hnb] at hr
    have hread := Read_cons_again c c r rest hr
    refine ⟨hread, ?_⟩
    intro res hres
    rw [hread] at hres
    cases hrec : c.Read rest with
    | none => simp [hrec] at hres
    | some res' =>
      simp only [hrec, Option.map_some', Option.some.injEq] at hres
      obtain ⟨more, hmore⟩ := Read_requests_head c rest res' hrec
      subst hres
      exact ⟨more, by simp [hmore]⟩

/-- C3 witness: a non-blocking consumer whose first reply is no-data makes one
round trip; a blocking one asks again. -/
theorem Read_noData_witness :
    (round (oneStream (-1) "0-0") noData).1 = oneStream (-1) "0-0" ∧
    ((round (oneStream (-1) "0-0") noData).2 ≠ none ↔ (oneStream (-1) "0-0").cfg.block < 0) ∧
    ((oneStream (-1) "0-0").cfg.block < 0 →
      (oneStream (-1) "0-0").Read (noData :: [failed "unused"]) =
        some { msgs := [], err := none, consumer := oneStream (-1) "0-0",
               requests := [request (oneStream (-1) "0-0")], rest := [failed "unused"] }) ∧
    (0 ≤ (oneStream (-1) "0-0").cfg.block →
      (oneStream (-1) "0-0").Read (noData :: [failed "unused"]) =
          ((oneStream (-1) "0-0").Read [failed "unused"]).map
            (fun res => { res with requests := request (oneStream (-1) "0-0") :: res.requests }) ∧
      ∀ res, (oneStream (-1) "0-0").Read (noData :: [failed "unused"]) = some res →
        ∃ more, res.requests =
          request (oneStream (-1) "0-0") :: request (oneStream (-1) "0-0") :: more) :=
  Read_noData (oneStream (-1) "0-0") noData [failed "unused"] rfl

/-! ## The batch of a data round (C4) -/

theorem batchOf_ne_nil (vals : List XStream) (h : ∃ xs ∈ vals, xs.Messages ≠ []) :
    batchOf vals ≠ [] := by
  induction vals with
  | nil =>
    obtain ⟨xs, hxs, _⟩ := h
    simp at hxs
  | cons y t ih =>
    obtain ⟨xs, hxs, hm⟩ := h
    simp only [batchOf, ne_eq, List.append_eq_nil, not_and]
    intro hy
    rcases List.mem_cons.mp hxs with heq | htail
    · subst heq
      simp [toMessages, hm] at hy
    · exact ih ⟨xs, htail, hm⟩

theorem batchOf_eq_nil (vals : List XStream) (h : ∀ xs ∈ vals, xs.Messages = []) :
    batchOf vals = [] := by
  induction vals with
  | nil => rfl
  | cons y t ih =>
    simp only [batchOf, List.append_eq_nil]
    refine ⟨?_, ih (fun xs hxs => h xs (List.mem_cons_of_mem _ hxs))⟩
    simp [toMessages, h y (List.mem_cons_self _ _)]

/-- C4: on a successful response that holds at least one entry, `Read` returns
in that iteration, with a nil error, the batch `batchOf r.vals`: the
concatenation over the response's streams, in response order, of each
stream's entries in response order, each Message carrying the stream's name
and the entry's ID and field map.  One request was sent and one reply
consumed. -/
theorem Read_returns_response_batch (c : Consumer) (r : Reply) (rest : List Reply)
    (hok : r.err = none) (hentry : ∃ xs ∈ r.vals, xs.Messages ≠ []) :
    c.Read (r :: rest) =
      some { msgs := batchOf r.vals, err := none,
             consumer := { c with lastIDs := (processVals r.vals c.lastIDs).2 },
             requests := [request c], rest := rest } := by
  have hr := round_data c r hok
  rw [if_pos (Or.inl (batchOf_ne_nil r.vals hentry))] at hr
  exact Read_cons_ret c _ r rest _ none hr

/-- C4 witness: the response `[A:[e], B:[]]` yields the batch `[e]`. -/
theorem Read_returns_response_batch_witness :
    (twoStreams 0 "0-0" "0-0").Read (okReply [⟨"A", [entry "1-0"]⟩, ⟨"B", []⟩] :: []) =
      some { msgs := [⟨"A", "1-0", [("key", "value")]⟩], err := none,
             consumer := twoStreams 0 "1-0" ">",
             requests := [request (twoStreams 0 "0-0" "0-0")], rest := [] } :=
  Read_returns_response_batch (twoStreams 0 "0-0" "0-0")
    (okReply [⟨"A", [entry "1-0"]⟩, ⟨"B", []⟩]) [] rfl
    ⟨⟨"A", [entry "1-0"]⟩, by simp [okReply], by simp⟩

/-! ## The completion decision (C8) -/

/-- C8, as the claim states it, fails: one subscribed stream at "0-0" and the
response `[A:[]]`.  After the response is processed the batch is empty and
every subscribed stream's cursor is ">", yet the iteration does not return:
`Read` goes round again, and returns only on a later reply. -/
theorem Read_last_replay_emptied_goes_round :
    (processVals [⟨"A", []⟩] (oneStream 0 "0-0").lastIDs) = ([], [("A", ">")]) ∧
    (round (oneStream 0 "0-0") (okReply [⟨"A", []⟩])).2 = none ∧
    (oneStream 0 "0-0").Read [okReply [⟨"A", []⟩]] = none ∧
    ((oneStream 0 "0-0").Read [okReply [⟨"A", []⟩], okReply [⟨"A", [entry "9-0"]⟩]]).map
        (fun res => (res.msgs, res.requests.length)) =
      some ([⟨"A", "9-0", [("key", "value")]⟩], 2) := by
  decide

/-- C8 (amended): in an iteration that receives a successful response, the
cursors are updated from the response, and the iteration returns the batch
with a nil error exactly when the batch is non-empty or every cursor held in
`lastIDs` was ">" before the response was processed (when the request was
sent); otherwise `Read` goes on as a call from the updated consumer on the
remaining replies. -/
theorem Read_completion_decision (c : Consumer) (r : Reply) (rest : List Reply)
    (hok : r.err = none) :
    (round c r).1 = { c with lastIDs := (processVals r.vals c.lastIDs).2 } ∧
    ((batchOf r.vals ≠ [] ∨ ∀ kv ∈ c.lastIDs, kv.2 = live) →
      (round c r).2 = some (batchOf r.vals, none) ∧
      c.Read (r :: rest) =
        some { msgs := batchOf r.vals, err := none,
               consumer := { c with lastIDs := (processVals r.vals c.lastIDs).2 },
               requests := [request c], rest := rest }) ∧
    (¬ (batchOf r.vals ≠ [] ∨ ∀ kv ∈ c.lastIDs, kv.2 = live) →
      (round c r).2 = none ∧
      c.Read (r :: rest) =
        (Consumer.Read { c with lastIDs := (processVals r.vals c.lastIDs).2 } rest).map
          (fun res => { res with requests := request c :: res.requests })) := by
  by_cases hcond : batchOf r.vals ≠ [] ∨ ∀ kv ∈ c.lastIDs, kv.2 = live
  · have hr := round_data_ret c r hok hcond
    refine ⟨by rw [hr], fun _ => ⟨by rw [hr], Read_cons_ret c _ r rest _ none hr⟩,
      fun hn => absurd hcond hn⟩
  · have hr := round_data_again c r hok hcond
    refine ⟨by rw [hr], fun hp => absurd hp hcond,
      fun _ => ⟨by rw [hr], Read_cons_again c _ r rest hr⟩⟩

/-- C8 witness: all cursors live before an empty response: the empty batch is
returned in that iteration. -/
theorem Read_completion_decision_witness :
    (oneStream 0 ">").Read (okReply [] :: []) =
      some { msgs := batchOf (okReply []).vals, err := none,
             consumer := { oneStream 0 ">" with
               lastIDs := (processVals (okReply []).vals (oneStream 0 ">").lastIDs).2 },
             requests := [request (oneStream 0 ">")], rest := [] } :=
  ((Read_completion_decision (oneStream 0 ">") (okReply []) [] rfl).2.1
    (Or.inr (by decide))).2

end consumer

namespace consumer

open redis

/-! ## The cursor update of a data round (C9) -/

theorem last_listing (vals : List XStream) (s : String) (h : ∃ xs ∈ vals, xs.Stream = s) :
    ∃ pre ys post, vals = pre ++ ys :: post ∧ ys ∈ vals ∧ ys.Stream = s ∧
      ∀ y ∈ post, y.Stream ≠ s := by
  induction vals with
  | nil =>
    obtain ⟨xs, hxs, _⟩ := h
    simp at hxs
  | cons a t ih =>
    by_cases ht : ∃ xs ∈ t, xs.Stream = s
    · obtain ⟨pre, ys, post, hsplit, hmem, hs, hpost⟩ := ih ht
      exact ⟨a :: pre, ys, post, by simp [hsplit], List.mem_cons_of_mem _ hmem, hs, hpost⟩
    · obtain ⟨xs, hxs, hs⟩ := h
      rcases List.mem_cons.mp hxs with heq | htail
      · subst heq
        refine ⟨[], xs, t, rfl, List.mem_cons_self _ _, hs, ?_⟩
        intro y hy hys
        exact ht ⟨y, hy, hys⟩
      · exact absurd ⟨xs, htail, hs⟩ ht

/-- C9: after an iteration on a successful response (one that lists each
stream once, or lists a stream again with the same entries), the cursor of
every stream named in the response is ">" if its listing holds zero entries
and otherwise the ID of the last entry of its listing; the cursor of every
stream the response does not name (subscribed or not) is unchanged. -/
theorem cursor_update_on_data (c : Consumer) (r : Reply) (hok : r.err = none)
    (hsame : ∀ xs ∈ r.vals, ∀ ys ∈ r.vals, xs.Stream = ys.Stream → xs.Messages = ys.Messages) :
    (∀ xs ∈ r.vals,
      (xs.Messages = [] → mapIndex (round c r).1.lastIDs xs.Stream = live) ∧
      (∀ msg, xs.Messages.getLast? = some msg →
        mapIndex (round c r).1.lastIDs xs.Stream = msg.ID)) ∧
    (∀ s, s ∉ r.vals.map (fun xs => xs.Stream) →
      mapIndex (round c r).1.lastIDs s = mapIndex c.lastIDs s) := by
  rw [round_data_lastIDs c r hok]
  constructor
  · intro xs hxs
    obtain ⟨pre, ys, post, hsplit, hys, hs, hpost⟩ :=
      last_listing r.vals xs.Stream ⟨xs, hxs, rfl⟩
    have hcur := cursor_last_listing pre post ys c.lastIDs (by rw [hs]; exact hpost)
    rw [← hsplit, hs] at hcur
    have hmsgs : ys.Messages = xs.Messages := hsame ys hys xs hxs hs
    rw [hcur]
    constructor
    · intro hm
      simp [cursorOf, hmsgs, hm]
    · intro msg hmsg
      simp [cursorOf, hmsgs, hmsg]
  · intro s hs
    apply cursor_unnamed
    intro xs hxs heq
    exact hs (List.mem_map.mpr ⟨xs, hxs, heq⟩)

/-- C9 witness: "A" listed with two entries, "B" with none, "C" not named. -/
theorem cursor_update_on_data_witness :
    (∀ xs ∈ (okReply [⟨"A", [entry "1-0", entry "2-0"]⟩, ⟨"B", []⟩]).vals,
      ∀ ys ∈ (okReply [⟨"A", [entry "1-0", entry "2-0"]⟩, ⟨"B", []⟩]).vals,
        xs.Stream = ys.Stream → xs.Messages = ys.Messages) ∧
    mapIndex (round (twoStreams 0 "0-0" "0-0")
        (okReply [⟨"A", [entry "1-0", entry "2-0"]⟩, ⟨"B", []⟩])).1.lastIDs "A" = "2-0" ∧
    mapIndex (round (twoStreams 0 "0-0" "0-0")
        (okReply [⟨"A", [entry "1-0", entry "2-0"]⟩, ⟨"B", []⟩])).1.lastIDs "B" = live ∧
    mapIndex (round (twoStreams 0 "0-0" "0-0")
        (okReply [⟨"A", [entry "1-0", entry "2-0"]⟩, ⟨"B", []⟩])).1.lastIDs "C" =
      mapIndex (twoStreams 0 "0-0" "0-0").lastIDs "C" :=
  ⟨by decide,
   ((cursor_update_on_data (twoStreams 0 "0-0" "0-0")
      (okReply [⟨"A", [entry "1-0", entry "2-0"]⟩, ⟨"B", []⟩]) rfl (by decide)).1
      ⟨"A", [entry "1-0", entry "2-0"]⟩ (by simp [okReply])).2 (entry "2-0") rfl,
   ((cursor_update_on_data (twoStreams 0 "0-0" "0-0")
      (okReply [⟨"A", [entry "1-0", entry "2-0"]⟩, ⟨"B", []⟩]) rfl (by decide)).1
      ⟨"B", []⟩ (by simp [okReply])).1 rfl,
   (cursor_update_on_data (twoStreams 0 "0-0" "0-0")
      (okReply [⟨"A", [entry "1-0", entry "2-0"]⟩, ⟨"B", []⟩]) rfl (by decide)).2 "C"
      (by decide)⟩

/-! ## The request of a round (C10) -/

theorem rounds_cfg (c : Consumer) (replies : List Reply) : (rounds c replies).cfg = c.cfg := by
  induction replies generalizing c with
  | nil => rfl
  | cons r t ih => rw [rounds_cons, ih, round_cfg]

/-- Applying a list of the package's options to a config. -/
theorem foldl_options (specs : List OptionSpec) (cfg : config) :
    (specs.map OptionSpec.toOption).foldl (fun cfg opt => opt cfg) cfg =
      { group := cfg.group, consumer := cfg.consumer,
        streams := cfg.streams ++ subscribed specs, count := lastCount cfg.count specs,
        block := lastBlock cfg.block specs, noAck := lastNoAck cfg.noAck specs } := by
  induction specs generalizing cfg with
  | nil => simp [subscribed, lastCount, lastBlock, lastNoAck]
  | cons o t ih =>
    simp only [List.map_cons, List.foldl_cons]
    rw [ih]
    cases o <;>
      simp [OptionSpec.toOption, WithStream, WithCount, WithBlock, WithNoAck, subscribed,
        lastCount, lastBlock, lastNoAck]

theorem New_map_toOption (group name : String) (specs : List OptionSpec) :
    New group name (specs.map OptionSpec.toOption) = NewWith group name specs := rfl

theorem NewWith_cfg (group name : String) (specs : List OptionSpec) :
    (NewWith group name specs).cfg = configured group name specs := by
  simp [NewWith, New, foldl_options, configured]

theorem request_requestFor (c : Consumer) : requestFor c.cfg c.lastIDs (request c) := by
  refine ⟨?_, ?_, rfl, rfl, rfl, rfl, rfl⟩
  · simp [request, buildStreams]
    omega
  · intro i hi
    constructor
    · simp only [request, buildStreams]
      exact List.getElem?_append_left hi
    · simp only [request, buildStreams]
      rw [List.getElem?_append_right (by omega)]
      simp

/-- A call of `Read` that returns sent one request per reply it consumed, and
its `i`-th request is the one built from the consumer as the first `i`
iterations left it. -/
theorem Read_trace (c : Consumer) (replies : List Reply) (res : ReadResult)
    (h : c.Read replies = some res) :
    res.requests.length + res.rest.length = replies.length ∧
    ∀ i, i < res.requests.length →
      res.requests[i]? = some (request (rounds c (replies.take i))) := by
  induction replies generalizing c res with
  | nil => simp [Consumer.Read] at h
  | cons r rest ih =>
    rcases hr : round c r with ⟨c', out⟩
    cases out with
    | some o =>
      obtain ⟨msgs, err⟩ := o
      rw [Read_cons_ret c c' r rest msgs err hr] at h
      simp only [Option.some.injEq] at h
      subst h
      refine ⟨by simp; omega, ?_⟩
      intro i hi
      simp only [List.length_singleton, Nat.lt_one_iff] at hi
      subst hi
      simp [rounds]
    | none =>
      rw [Read_cons_again c c' r rest hr] at h
      cases hrec : c'.Read rest with
      | none => simp [hrec] at h
      | some res' =>
        simp only [hrec, Option.map_some', Option.some.injEq] at h
        obtain ⟨hlen, hreq⟩ := ih c' res' hrec
        subst h
        refine ⟨by simp only [List.length_cons]; omega, ?_⟩
        intro i hi
        cases i with
        | zero => simp [rounds]
        | succ j =>
          simp only [List.length_cons, Nat.add_lt_add_iff_right] at hi
          have hc' : (round c r).1 = c' := by rw [hr]
          simp only [List.getElem?_cons_succ, List.take_succ_cons]
          rw [rounds_cons, hc']
          exact hreq j hi

/-- C10: the request built from a consumer is the one the specification asks
for (`requestFor`): with `n` subscribed streams, `Streams` has length `2n`, its
element `i` is the `i`-th subscribed stream and its element `n + i` that
stream's current cursor, and group, consumer name, count, block duration and
no-ack flag are the configured values.  A call of `Read` that returns has
sent exactly one request per reply it consumed, and the request of its round
`i` is the one built from the consumer as the rounds before it left it, so
it is the request the specification asks for with the call's config and the
cursors current at round `i`.  For a consumer made by `New` from any list of
the package's options, the config is the configured values: the streams of
the `WithStream` options in the order given, and the group, name, count,
block duration and no-ack flag set. -/
theorem request_layout (c : Consumer) :
    requestFor c.cfg c.lastIDs (request c) ∧
    (∀ replies res, c.Read replies = some res →
      res.requests.length + res.rest.length = replies.length ∧
      ∀ i, i < res.requests.length →
        res.requests[i]? = some (request (rounds c (replies.take i))) ∧
        requestFor c.cfg (rounds c (replies.take i)).lastIDs
          (request (rounds c (replies.take i)))) ∧
    (∀ group name specs,
      (NewWith group name specs).cfg = configured group name specs ∧
      (NewWith group name specs).cfg.streams = subscribed specs) := by
  refine ⟨request_requestFor c, ?_, ?_⟩
  · intro replies res h
    obtain ⟨hlen, hreq⟩ := Read_trace c replies res h
    refine ⟨hlen, fun i hi => ⟨hreq i hi, ?_⟩⟩
    have hfor := request_requestFor (rounds c (replies.take i))
    rw [rounds_cfg] at hfor
    exact hfor
  · intro group name specs
    rw [NewWith_cfg]
    exact ⟨rfl, rfl⟩

/-- C10 example: a call of two rounds; the first request carries the replay
cursor "0-0", the second the cursor ">" the first round left. -/
theorem request_layout_witness :
    (oneStream 5 "0-0").Read [okReply [⟨"A", []⟩], okReply [⟨"A", [entry "9-0"]⟩]] =
      some { msgs := [⟨"A", "9-0", [("key", "value")]⟩], err := none,
             consumer := oneStream 5 "9-0",
             requests := [⟨"g", "n", ["A", "0-0"], 0, 5, false⟩, ⟨"g", "n", ["A", ">"], 0, 5, false⟩],
             rest := [] } ∧
    ([⟨"g", "n", ["A", "0-0"], 0, 5, false⟩, ⟨"g", "n", ["A", ">"], 0, 5, false⟩] :
        List XReadGroupArgs)[1]? =
      some (request (rounds (oneStream 5 "0-0")
        ([okReply [⟨"A", []⟩], okReply [⟨"A", [entry "9-0"]⟩]].take 1))) ∧
    request (rounds (oneStream 5 "0-0")
        ([okReply [⟨"A", []⟩], okReply [⟨"A", [entry "9-0"]⟩]].take 1)) =
      ⟨"g", "n", ["A", ">"], 0, 5, false⟩ :=
  ⟨by decide,
   (((request_layout (oneStream 5 "0-0")).2.1
      [okReply [⟨"A", []⟩], okReply [⟨"A", [entry "9-0"]⟩]]
      { msgs := [⟨"A", "9-0", [("key", "value")]⟩], err := none,
        consumer := oneStream 5 "9-0",
        requests := [⟨"g", "n", ["A", "0-0"], 0, 5, false⟩, ⟨"g", "n", ["A", ">"], 0, 5, false⟩],
        rest := [] }
      (by decide)).2 1 (by decide)).1,
   by decide⟩

/-! ## The empty read after acknowledgment (C7) -/

theorem cursor_all_empty (vals : List XStream) (lastIDs : GoMap String) (s : String)
    (hempty : ∀ xs ∈ vals, xs.Stream = s → xs.Messages = [])
    (h : mapIndex lastIDs s = live ∨ ∃ xs ∈ vals, xs.Stream = s) :
    mapIndex (processVals vals lastIDs).2 s = live := by
  rw [processVals_snd]
  induction vals generalizing lastIDs with
  | nil =>
    rcases h with h | ⟨xs, hxs, _⟩
    · simpa using h
    · simp at hxs
  | cons y t ih =>
    simp only [List.foldl_cons]
    apply ih _ (fun xs hxs => hempty xs (List.mem_cons_of_mem _ hxs))
    by_cases hy : y.Stream = s
    · left
      have hm := hempty y (List.mem_cons_self _ _) hy
      subst hy
      rw [mapIndex_mapAssign_same]
      simp [cursorOf, hm]
    · rcases h with h | ⟨xs, hxs, hs⟩
      · left
        rw [mapIndex_mapAssign_ne _ _ _ _ hy]
        exact h
      · right
        rcases List.mem_cons.mp hxs with heq | htail
        · subst heq
          exact absurd hs hy
        · exact ⟨xs, htail, hs⟩

/-- C7: a consumer with a negative block duration, a response that lists
every subscribed stream and holds no entry, then a no-data reply: `Read`
returns the empty batch with a nil error and leaves every subscribed stream's
cursor at ">".  When some cursor of the map was not ">" at the start (Replay
mode), the call makes exactly two round trips, the replay request and the
live request, and consumes exactly those two replies. -/
theorem Read_empty_after_ack (c : Consumer) (r1 r2 : Reply) (rest : List Reply)
    (hblock : c.cfg.block < 0) (hok : r1.err = none)
    (hempty : ∀ xs ∈ r1.vals, xs.Messages = [])
    (hall : ∀ s ∈ c.cfg.streams, ∃ xs ∈ r1.vals, xs.Stream = s)
    (hnil : r2.err = some Err.Nil) :
    ∃ res, c.Read (r1 :: r2 :: rest) = some res ∧ res.msgs = [] ∧ res.err = none ∧
      (∀ s ∈ c.cfg.streams, mapIndex res.consumer.lastIDs s = live) ∧
      res.consumer.cfg = c.cfg ∧
      ((∃ kv ∈ c.lastIDs, kv.2 ≠ live) →
        res.rest = rest ∧ res.requests = [request c, request res.consumer]) := by
  have hbatch := batchOf_eq_nil r1.vals hempty
  have hlive : ∀ s ∈ c.cfg.streams, mapIndex (processVals r1.vals c.lastIDs).2 s = live :=
    fun s hs => cursor_all_empty r1.vals c.lastIDs s (fun xs hxs _ => hempty xs hxs)
      (Or.inr (hall s hs))
  by_cases hcond : batchOf r1.vals ≠ [] ∨ ∀ kv ∈ c.lastIDs, kv.2 = live
  · have h1 := Read_cons_ret c _ r1 (r2 :: rest) _ none (round_data_ret c r1 hok hcond)
    refine ⟨_, h1, hbatch, rfl, hlive, rfl, ?_⟩
    rintro ⟨kv, hkv, hne⟩
    rcases hcond with hc | hc
    · exact absurd hbatch hc
    · exact absurd (hc kv hkv) hne
  · have h1 := Read_cons_again c _ r1 (r2 :: rest) (round_data_again c r1 hok hcond)
    have h2 := Read_ret_on_noData { c with lastIDs := (processVals r1.vals c.lastIDs).2 } r2 rest
      hnil hblock
    rw [h2] at h1
    exact ⟨_, h1, rfl, rfl, hlive, rfl, fun _ => ⟨rfl, rfl⟩⟩

/-- C7 witness: the with-ack case of the integration test: both streams in
replay at the IDs delivered before, the replay request answered with both
streams empty, the live request with no-data. -/
theorem Read_empty_after_ack_witness :
    ∃ res, (twoStreams (-1) "1-0" "2-0").Read
        (okReply [⟨"A", []⟩, ⟨"B", []⟩] :: noData :: []) = some res ∧
      res.msgs = [] ∧ res.err = none ∧
      (∀ s ∈ (twoStreams (-1) "1-0" "2-0").cfg.streams,
        mapIndex res.consumer.lastIDs s = live) ∧
      res.consumer.cfg = (twoStreams (-1) "1-0" "2-0").cfg ∧
      ((∃ kv ∈ (twoStreams (-1) "1-0" "2-0").lastIDs, kv.2 ≠ live) →
        res.rest = [] ∧
        res.requests = [request (twoStreams (-1) "1-0" "2-0"), request res.consumer]) :=
  Read_empty_after_ack (twoStreams (-1) "1-0" "2-0") (okReply [⟨"A", []⟩, ⟨"B", []⟩]) noData []
    (by decide) rfl (by simp [okReply]) (by simp [twoStreams, okReply]) rfl

end consumer

namespace consumer

open redis

/-! ## Fresh consumers (C6) -/

theorem foldl_assign_keys (streams : List String) (init : GoMap String) (s : String) :
    s ∈ mapKeys (streams.foldl (fun m stream => mapAssign m stream "0-0") init) ↔
      s ∈ mapKeys init ∨ s ∈ streams := by
  induction streams generalizing init with
  | nil => simp
  | cons a t ih =>
    simp only [List.foldl_cons, List.mem_cons]
    rw [ih, mem_mapKeys_mapAssign]
    tauto

theorem foldl_assign_nodup (streams : List String) (init : GoMap String)
    (h : (mapKeys init).Nodup) :
    (mapKeys (streams.foldl (fun m stream => mapAssign m stream "0-0") init)).Nodup := by
  induction streams generalizing init with
  | nil => simpa using h
  | cons a t ih =>
    simp only [List.foldl_cons]
    exact ih _ (nodup_mapKeys_mapAssign init a "0-0" h)

theorem foldl_assign_values (streams : List String) (init : GoMap String)
    (h : ∀ kv ∈ init, kv.2 = "0-0") :
    ∀ kv ∈ streams.foldl (fun m stream => mapAssign m stream "0-0") init, kv.2 = "0-0" := by
  induction streams generalizing init with
  | nil => simpa using h
  | cons a t ih =>
    simp only [List.foldl_cons]
    apply ih
    intro kv hkv
    rcases mem_values_mapAssign init a "0-0" kv hkv with heq | hmem
    · rw [heq]
    · exact h kv hmem

theorem round_congr (c1 c2 : Consumer) (r : Reply) (hids : c1.lastIDs = c2.lastIDs)
    (hb : r.err ≠ some Err.Nil ∨ (c1.cfg.block < 0 ↔ c2.cfg.block < 0)) :
    (round c1 r).2 = (round c2 r).2 ∧ (round c1 r).1.lastIDs = (round c2 r).1.lastIDs := by
  by_cases h1 : r.err = some Err.Nil
  · have hb2 : c1.cfg.block < 0 ↔ c2.cfg.block < 0 := by
      rcases hb with hb | hb
      · exact absurd h1 hb
      · exact hb
    rw [round_noData c1 r h1, round_noData c2 r h1]
    by_cases hneg : c1.cfg.block < 0
    · rw [if_pos hneg, if_pos (hb2.mp hneg)]
      exact ⟨rfl, hids⟩
    · rw [if_neg hneg, if_neg (fun hc => hneg (hb2.mpr hc))]
      exact ⟨rfl, hids⟩
  · by_cases h2 : r.err = none
    · rw [round_data c1 r h2, round_data c2 r h2, hids]
      split <;> exact ⟨rfl, rfl⟩
    · rw [round_fail c1 r h1 h2, round_fail c2 r h1 h2]
      exact ⟨rfl, hids⟩

theorem Read_congr (replies : List Reply) (c1 c2 : Consumer) (hids : c1.lastIDs = c2.lastIDs)
    (hb : c1.cfg.block < 0 ↔ c2.cfg.block < 0) :
    (c1.Read replies).map ReadResult.observed = (c2.Read replies).map ReadResult.observed := by
  induction replies generalizing c1 c2 with
  | nil => simp [Consumer.Read]
  | cons r rest ih =>
    obtain ⟨hout, hnext⟩ := round_congr c1 c2 r hids (Or.inr hb)
    rcases hr1 : round c1 r with ⟨c1', out1⟩
    rcases hr2 : round c2 r with ⟨c2', out2⟩
    rw [hr1, hr2] at hout hnext
    simp only at hout hnext
    subst hout
    cases out1 with
    | some o =>
      obtain ⟨msgs, err⟩ := o
      rw [Read_cons_ret c1 c1' r rest msgs err hr1, Read_cons_ret c2 c2' r rest msgs err hr2]
      simp [ReadResult.observed, hnext]
    | none =>
      rw [Read_cons_again c1 c1' r rest hr1, Read_cons_again c2 c2' r rest hr2]
      have hcfg1 : c1'.cfg = c1.cfg := by
        have := round_cfg c1 r
        rw [hr1] at this
        exact this
      have hcfg2 : c2'.cfg = c2.cfg := by
        have := round_cfg c2 r
        rw [hr2] at this
        exact this
      have hrec := ih c1' c2' hnext (by rw [hcfg1, hcfg2]; exact hb)
      rw [Option.map_map, Option.map_map]
      exact hrec

/-- A Consumer made by `New` from any option functions: its cursor map is
built from its config's streams alone, and two of them with the same streams
agree as far as their block durations allow. -/
theorem New_fresh_general (group1 name1 group2 name2 : String)
    (options1 options2 : List OptionFn)
    (hstreams : (New group1 name1 options1).cfg.streams =
      (New group2 name2 options2).cfg.streams) :
    (∀ s, s ∈ mapKeys (New group1 name1 options1).lastIDs ↔
      s ∈ (New group1 name1 options1).cfg.streams) ∧
    (mapKeys (New group1 name1 options1).lastIDs).Nodup ∧
    (∀ kv ∈ (New group1 name1 options1).lastIDs, kv.2 = "0-0" ∧ kv.2 ≠ live) ∧
    (∀ s ∈ (New group1 name1 options1).cfg.streams,
      mapIndex (New group1 name1 options1).lastIDs s = "0-0") ∧
    (New group1 name1 options1).lastIDs = (New group2 name2 options2).lastIDs ∧
    (request (New group1 name1 options1)).Streams =
      (request (New group2 name2 options2)).Streams ∧
    ((New group1 name1 options1).cfg = (New group2 name2 options2).cfg →
      request (New group1 name1 options1) = request (New group2 name2 options2)) ∧
    (∀ r, r.err ≠ some Err.Nil →
      (round (New group1 name1 options1) r).2 = (round (New group2 name2 options2) r).2 ∧
      (round (New group1 name1 options1) r).1.lastIDs =
        (round (New group2 name2 options2) r).1.lastIDs) ∧
    (∀ r out1 out2, (round (New group1 name1 options1) r).2 = some out1 →
      (round (New group2 name2 options2) r).2 = some out2 → out1 = out2) ∧
    (((New group1 name1 options1).cfg.block < 0 ↔ (New group2 name2 options2).cfg.block < 0) →
      ∀ replies,
        ((New group1 name1 options1).Read replies).map ReadResult.observed =
          ((New group2 name2 options2).Read replies).map ReadResult.observed) := by
  have hkeys : ∀ s, s ∈ mapKeys (New group1 name1 options1).lastIDs ↔
      s ∈ (New group1 name1 options1).cfg.streams := by
    intro s
    simp only [New]
    rw [foldl_assign_keys]
    simp [mapKeys]
  have hnodup : (mapKeys (New group1 name1 options1).lastIDs).Nodup := by
    simp only [New]
    exact foldl_assign_nodup _ [] (by simp [mapKeys])
  have hvals : ∀ kv ∈ (New group1 name1 options1).lastIDs, kv.2 = "0-0" := by
    simp only [New]
    exact foldl_assign_values _ [] (by simp)
  have hids : (New group1 name1 options1).lastIDs = (New group2 name2 options2).lastIDs := by
    simp only [New] at hstreams ⊢
    rw [hstreams]
  refine ⟨hkeys, hnodup, ?_, ?_, hids, ?_, ?_, ?_, ?_, ?_⟩
  · intro kv hkv
    have h0 := hvals kv hkv
    refine ⟨h0, ?_⟩
    rw [h0]
    decide
  · intro s hs
    have hmem : s ∈ mapKeys (New group1 name1 options1).lastIDs := (hkeys s).mpr hs
    obtain ⟨kv, hkv, hfst⟩ := List.mem_map.mp hmem
    have h0 := hvals kv hkv
    have hkv2 : (s, "0-0") ∈ (New group1 name1 options1).lastIDs := by
      have : kv = (s, "0-0") := Prod.ext hfst h0
      rw [← this]
      exact hkv
    exact mapIndex_of_mem _ s "0-0" hnodup hkv2
  · simp only [request, buildStreams]
    rw [hstreams, hids]
  · intro hcfg
    simp only [request, buildStreams]
    rw [hcfg, hids]
  · intro r hr
    exact round_congr _ _ r hids (Or.inl hr)
  · intro r out1 out2 h1 h2
    by_cases hnil : r.err = some Err.Nil
    · rw [round_noData _ r hnil] at h1 h2
      split at h1
      · split at h2
        · simp only [Option.some.injEq] at h1 h2
          rw [← h1, ← h2]
        · simp at h2
      · simp at h1
    · have hc := (round_congr _ _ r hids (Or.inl hnil)).1
      rw [h1, h2] at hc
      exact Option.some.inj hc
  · intro hb replies
    exact Read_congr replies _ _ hids hb

/-- C6, as the claim states it, fails for two fresh consumers with the same
streams.  With groups "g1" and "g2" their first requests differ.  The
integration test's plain consumer and its with-ack consumer (`WithBlock(-1)`)
have the same streams and the same cursor map, but their first requests
differ, and on the replies no-data, then one entry per stream, the first
`Read` of the plain one returns the two entries and that of the non-blocking
one returns the empty batch. -/
theorem fresh_consumers_same_streams_differ :
    subscribed [OptionSpec.stream "A"] = subscribed [OptionSpec.stream "A"] ∧
    request (NewWith "g1" "n" [OptionSpec.stream "A"]) ≠
      request (NewWith "g2" "n" [OptionSpec.stream "A"]) ∧
    subscribed testOptions = subscribed withAckOptions ∧
    (NewWith "test-group" "test-consumer" testOptions).lastIDs =
      (NewWith "test-group" "test-consumer" withAckOptions).lastIDs ∧
    request (NewWith "test-group" "test-consumer" testOptions) ≠
      request (NewWith "test-group" "test-consumer" withAckOptions) ∧
    ((NewWith "test-group" "test-consumer" testOptions).Read [noData, testReply]).map
        (fun res => (res.msgs, res.err)) =
      some ([⟨"test-stream-1", "1-0", [("key", "value")]⟩,
             ⟨"test-stream-2", "2-0", [("key", "value")]⟩], none) ∧
    ((NewWith "test-group" "test-consumer" withAckOptions).Read [noData, testReply]).map
        (fun res => (res.msgs, res.err)) =
      some ([], none) := by
  decide

/-- C6 (amended): for every group, consumer name and list of the package's
options, `New` returns a Consumer with the configured values as config and a
cursor map whose keys are exactly the streams of the `WithStream` options,
each once, every one mapped to "0-0" and none to ">"; it is made from the
arguments alone.  Two fresh Consumers built with the same streams have the
same cursor map and send the same `Streams` argument in their first request;
they are the same Consumer, sending the same request, when all their
configured values are the same.  On the same reply other than no-data their
first round has the same outcome and leaves the same cursors; on any reply on
which both return in the first round they return the same batch and error;
and when their block durations have the same sign, their first `Read` gives
the same batch, error, cursors and remaining replies on every sequence of
replies. -/
theorem New_fresh_cursors (group1 name1 group2 name2 : String)
    (specs1 specs2 : List OptionSpec) (hstreams : subscribed specs1 = subscribed specs2) :
    (NewWith group1 name1 specs1).cfg = configured group1 name1 specs1 ∧
    (∀ s, s ∈ mapKeys (NewWith group1 name1 specs1).lastIDs ↔ s ∈ subscribed specs1) ∧
    (mapKeys (NewWith group1 name1 specs1).lastIDs).Nodup ∧
    (∀ kv ∈ (NewWith group1 name1 specs1).lastIDs, kv.2 = "0-0" ∧ kv.2 ≠ live) ∧
    (∀ s ∈ subscribed specs1, mapIndex (NewWith group1 name1 specs1).lastIDs s = "0-0") ∧
    (NewWith group1 name1 specs1).lastIDs = (NewWith group2 name2 specs2).lastIDs ∧
    (request (NewWith group1 name1 specs1)).Streams =
      (request (NewWith group2 name2 specs2)).Streams ∧
    (configured group1 name1 specs1 = configured group2 name2 specs2 →
      NewWith group1 name1 specs1 = NewWith group2 name2 specs2 ∧
      request (NewWith group1 name1 specs1) = request (NewWith group2 name2 specs2)) ∧
    (∀ r, r.err ≠ some Err.Nil →
      (round (NewWith group1 name1 specs1) r).2 = (round (NewWith group2 name2 specs2) r).2 ∧
      (round (NewWith group1 name1 specs1) r).1.lastIDs =
        (round (NewWith group2 name2 specs2) r).1.lastIDs) ∧
    (∀ r out1 out2, (round (NewWith group1 name1 specs1) r).2 = some out1 →
      (round (NewWith group2 name2 specs2) r).2 = some out2 → out1 = out2) ∧
    ((lastBlock 0 specs1 < 0 ↔ lastBlock 0 specs2 < 0) →
      ∀ replies,
        ((NewWith group1 name1 specs1).Read replies).map ReadResult.observed =
          ((NewWith group2 name2 specs2).Read replies).map ReadResult.observed) := by
  have hcfg1 := NewWith_cfg group1 name1 specs1
  have hcfg2 := NewWith_cfg group2 name2 specs2
  have hs1 : (NewWith group1 name1 specs1).cfg.streams = subscribed specs1 := by
    rw [hcfg1, configured]
  have hs2 : (NewWith group2 name2 specs2).cfg.streams = subscribed specs2 := by
    rw [hcfg2, configured]
  have hb1 : (NewWith group1 name1 specs1).cfg.block = lastBlock 0 specs1 := by
    rw [hcfg1, configured]
  have hb2 : (NewWith group2 name2 specs2).cfg.block = lastBlock 0 specs2 := by
    rw [hcfg2, configured]
  have hgen := New_fresh_general group1 name1 group2 name2
    (specs1.map OptionSpec.toOption) (specs2.map OptionSpec.toOption)
    (by
      have h1 := hs1
      have h2 := hs2
      simp only [NewWith] at h1 h2
      rw [h1, h2, hstreams])
  simp only [New_map_toOption] at hgen
  obtain ⟨g1, g2, g3, g4, g5, g6, g7, g8, g9, g10⟩ := hgen
  refine ⟨hcfg1, ?_, g2, g3, ?_, g5, g6, ?_, g8, g9, ?_⟩
  · intro s
    rw [g1 s, hs1]
  · intro s hs
    exact g4 s (by rw [hs1]; exact hs)
  · intro hcfg
    have hc : (NewWith group1 name1 specs1).cfg = (NewWith group2 name2 specs2).cfg := by
      rw [hcfg1, hcfg2, hcfg]
    have heq : NewWith group1 name1 specs1 = NewWith group2 name2 specs2 := by
      rcases h1 : NewWith group1 name1 specs1 with ⟨cfgA, idsA⟩
      rcases h2 : NewWith group2 name2 specs2 with ⟨cfgB, idsB⟩
      rw [h1, h2] at hc g5
      simp only at hc g5
      rw [hc, g5]
    exact ⟨heq, g7 hc⟩
  · intro hb replies
    exact g10 (by rw [hb1, hb2]; exact hb) replies

/-- C6 witness: the two runs of the integration test, the second consumer
with another name and further options: two fresh consumers with the same two
streams both return the pair of entries, in subscription order, from their
first `Read`. -/
theorem New_fresh_cursors_witness :
    subscribed testOptions = subscribed otherOptions ∧
    (NewWith "test-group" "test-consumer" testOptions).lastIDs =
      [("test-stream-1", "0-0"), ("test-stream-2", "0-0")] ∧
    ((NewWith "test-group" "test-consumer" testOptions).Read [testReply]).map
        ReadResult.observed =
      some ([⟨"test-stream-1", "1-0", [("key", "value")]⟩,
             ⟨"test-stream-2", "2-0", [("key", "value")]⟩], none,
            [("test-stream-1", "1-0"), ("test-stream-2", "2-0")], []) ∧
    ((NewWith "test-group" "test-consumer" testOptions).Read [testReply]).map
        ReadResult.observed =
      ((NewWith "test-group" "second-consumer" otherOptions).Read [testReply]).map
        ReadResult.observed :=
  ⟨by decide, by decide, by decide,
   (New_fresh_cursors "test-group" "test-consumer" "test-group" "second-consumer"
      testOptions otherOptions (by decide)).2.2.2.2.2.2.2.2.2.2 (by decide) [testReply]⟩

end consumer

namespace consumer

open redis

/-! ## Acknowledgment (C5) -/

theorem groupIDs_foldl_index (msgs : List Message) (init : GoMap (List String)) (s : String) :
    mapIndex (msgs.foldl
        (fun ids msg => mapAssign ids msg.Stream (mapIndex ids msg.Stream ++ [msg.ID])) init) s =
      mapIndex init s ++ (msgs.filter (fun m => m.Stream = s)).map (fun m => m.ID) := by
  induction msgs generalizing init with
  | nil => simp
  | cons a t ih =>
    simp only [List.foldl_cons]
    rw [ih]
    by_cases h : a.Stream = s
    · subst h
      rw [mapIndex_mapAssign_same]
      simp
    · rw [mapIndex_mapAssign_ne _ _ _ _ h]
      simp [h]

theorem groupIDs_foldl_keys (msgs : List Message) (init : GoMap (List String)) (s : String) :
    s ∈ mapKeys (msgs.foldl
        (fun ids msg => mapAssign ids msg.Stream (mapIndex ids msg.Stream ++ [msg.ID])) init) ↔
      s ∈ mapKeys init ∨ ∃ m ∈ msgs, m.Stream = s := by
  induction msgs generalizing init with
  | nil => simp
  | cons a t ih =>
    simp only [List.foldl_cons]
    rw [ih, mem_mapKeys_mapAssign]
    constructor
    · rintro ((h | h) | ⟨m, hm, hs⟩)
      · exact Or.inr ⟨a, List.mem_cons_self _ _, h.symm⟩
      · exact Or.inl h
      · exact Or.inr ⟨m, List.mem_cons_of_mem _ hm, hs⟩
    · rintro (h | ⟨m, hm, hs⟩)
      · exact Or.inl (Or.inr h)
      · rcases List.mem_cons.mp hm with heq | htail
        · subst heq
          exact Or.inl (Or.inl hs.symm)
        · exact Or.inr ⟨m, htail, hs⟩

theorem groupIDs_foldl_nodup (msgs : List Message) (init : GoMap (List String))
    (h : (mapKeys init).Nodup) :
    (mapKeys (msgs.foldl
        (fun ids msg => mapAssign ids msg.Stream (mapIndex ids msg.Stream ++ [msg.ID]))
        init)).Nodup := by
  induction msgs generalizing init with
  | nil => simpa using h
  | cons a t ih =>
    simp only [List.foldl_cons]
    exact ih _ (nodup_mapKeys_mapAssign init a.Stream _ h)

/-- C5: for an empty input `Ack` makes no pipelined call and returns a nil
error.  For a non-empty input it makes one pipelined call and returns that
pipeline's error unchanged; whatever order the range over the `ids` map takes,
the commands queued name each stream at most once, name exactly the streams
that occur in the input, and each carries the configured group and exactly
the IDs of the input messages of its stream, in input order, duplicates
kept. -/
theorem Ack_groups_by_stream (c : Consumer) (order : RangeOrder)
    (exec : List XAckCmd → Option Err) (msgs : List Message) :
    (msgs = [] → c.Ack order exec msgs = { pipelines := [], err := none }) ∧
    (msgs ≠ [] → ∃ cmds,
      c.Ack order exec msgs = { pipelines := [cmds], err := exec cmds } ∧
      (cmds.map (fun cmd => cmd.stream)).Nodup ∧
      (∀ s, s ∈ cmds.map (fun cmd => cmd.stream) ↔ ∃ m ∈ msgs, m.Stream = s) ∧
      (∀ cmd ∈ cmds, cmd.group = c.cfg.group ∧
        cmd.ids = (msgs.filter (fun m => m.Stream = cmd.stream)).map (fun m => m.ID))) := by
  constructor
  · intro h
    simp [Consumer.Ack, h]
  · intro h
    have hperm := order.perm (groupIDs msgs)
    have hnodup : (mapKeys (groupIDs msgs)).Nodup :=
      groupIDs_foldl_nodup msgs [] (by simp [mapKeys])
    have hstreams : ((order.visit (groupIDs msgs)).map
        (fun kv => ({ stream := kv.1, group := c.cfg.group, ids := kv.2 } : XAckCmd))).map
        (fun cmd => cmd.stream) = mapKeys (order.visit (groupIDs msgs)) := by
      simp [mapKeys, List.map_map, Function.comp_def]
    have hpermKeys : (mapKeys (order.visit (groupIDs msgs))).Perm (mapKeys (groupIDs msgs)) :=
      hperm.map Prod.fst
    refine ⟨(order.visit (groupIDs msgs)).map
      (fun kv => ({ stream := kv.1, group := c.cfg.group, ids := kv.2 } : XAckCmd)),
      by simp [Consumer.Ack, h], ?_, ?_, ?_⟩
    · rw [hstreams]
      exact hpermKeys.nodup_iff.mpr hnodup
    · intro s
      rw [hstreams, hpermKeys.mem_iff]
      have hk := groupIDs_foldl_keys msgs [] s
      simp only [mapKeys, List.map_nil, List.not_mem_nil, false_or] at hk
      exact hk
    · intro cmd hcmd
      obtain ⟨kv, hkv, hmk⟩ := List.mem_map.mp hcmd
      have hkv2 : kv ∈ groupIDs msgs := hperm.mem_iff.mp hkv
      have hidx : mapIndex (groupIDs msgs) kv.1 = kv.2 :=
        mapIndex_of_mem (groupIDs msgs) kv.1 kv.2 hnodup hkv2
      have hfilter := groupIDs_foldl_index msgs [] kv.1
      subst hmk
      refine ⟨rfl, ?_⟩
      simp only
      rw [← hidx]
      simpa [groupIDs, mapIndex] using hfilter

/-- C5 example: three messages of two streams, one ID given twice. -/
theorem Ack_groups_by_stream_witness :
    (oneStream 0 ">").Ack RangeOrder.asStored (fun _ => some (Err.Other "pipeline"))
        [⟨"A", "1-0", []⟩, ⟨"B", "2-0", []⟩, ⟨"A", "1-0", []⟩] =
      { pipelines := [[⟨"A", "g", ["1-0", "1-0"]⟩, ⟨"B", "g", ["2-0"]⟩]],
        err := some (Err.Other "pipeline") } ∧
    (oneStream 0 ">").Ack RangeOrder.asStored (fun _ => some (Err.Other "pipeline")) [] =
      { pipelines := [], err := none } :=
  ⟨by decide,
   (Ack_groups_by_stream (oneStream 0 ">") RangeOrder.asStored
      (fun _ => some (Err.Other "pipeline")) []).1 rfl⟩

end consumer
